import Mathlib

set_option maxHeartbeats 1000000

/-!
Shallow embedding of the waterfalls indexer storage core:
the in-memory store (src/store/memory.rs) and the block-header
preload/gap-repair procedure (src/server/preload.rs).

Machine integers (u32 heights, u64 script hashes) are modelled as `Nat`;
none of the modelled code paths exercise overflow.  The two `BTreeMap`s
guarded by mutexes in `MemoryStore` are modelled as functions to `Option`
(BTreeMap equality is extensional equality of contents), while maps that
the code iterates over (the caller-supplied `history_map` and
`utxo_created` arguments and the contents of an undo record) are modelled
as association lists with unique keys, mirroring BTreeMap iteration.
The `VecDeque` of undo records is a list whose head is the deque front.
-/

/-- A script hash (u64 digest) modelled as a natural. -/
abbrev ScriptHash := Nat

/-- A transaction id modelled as a natural. -/
abbrev Txid := Nat

/-- An elements `OutPoint`: spending transaction id and output index. -/
structure OutPoint where
  txid : Txid
  vout : Nat
  deriving DecidableEq

/-- The direction marker `V` of a history entry: seen at input index
`vin i` or at output index `vout i`. -/
inductive V where
  | vin : Nat → V
  | vout : Nat → V
  deriving DecidableEq

/-- A history entry `TxSeen`: transaction id, height, direction marker. -/
structure TxSeen where
  txid : Txid
  height : Nat
  v : V
  deriving DecidableEq

/-- A `SpentUtxo` delta: the consumed outpoint, the script hash owning it,
the spending transaction and its input index. -/
structure SpentUtxo where
  outpoint : OutPoint
  script_hash : ScriptHash
  txid : Txid
  vin : Nat
  deriving DecidableEq

/-- A `BlockMeta`: height, block hash and timestamp. -/
structure BlockMeta where
  height : Nat
  hash : Nat
  timestamp : Nat
  deriving DecidableEq

/-- The UTXO map `BTreeMap<OutPoint, ScriptHash>`, extensionally. -/
abbrev UtxoMap := OutPoint → Option ScriptHash

/-- The history map `BTreeMap<ScriptHash, Vec<TxSeen>>`, extensionally. -/
abbrev HistMap := ScriptHash → Option (List TxSeen)

/-- A `BTreeMap<ScriptHash, Vec<TxSeen>>` that the code iterates over,
as an association list (unique keys where the code guarantees them). -/
abbrev HAssoc := List (ScriptHash × List TxSeen)

/-- One undo record (`ReorgData`) captured by `update`. -/
structure ReorgData where
  height : Nat
  spent : List (OutPoint × ScriptHash)
  history : HAssoc
  utxos_created : List (OutPoint × ScriptHash)
  deriving DecidableEq

/-- The in-memory store: UTXO map, history map, undo deque
(head of the list = front/oldest of the `VecDeque`). -/
structure MemoryStore where
  utxos : UtxoMap
  history : HistMap
  reorg_data : List ReorgData

/-- Model of `MemoryStore::new()`: all maps empty. -/
def MemoryStore.new : MemoryStore :=
  ⟨fun _ => none, fun _ => none, []⟩

/-- Model of `MemoryStore::remove_utxos`: remove each outpoint in order from the
UTXO map; the second component collects the outpoints that were already
absent when processed (each produces a `log::warn!`). -/
def remove_utxos (m : UtxoMap) : List OutPoint → UtxoMap × List OutPoint
  | [] => (m, [])
  | op :: rest =>
    let r := remove_utxos (fun o => if o = op then none else m o) rest
    (r.1, (if m op = none then [op] else []) ++ r.2)

/-- Model of `MemoryStore::insert_utxos`: `extend` of the UTXO map with the given
bindings (later bindings overwrite earlier ones, as in insertion order). -/
def insert_utxos (m : UtxoMap) (adds : List (OutPoint × ScriptHash)) : UtxoMap :=
  adds.foldl (fun acc p => fun o => if o = p.1 then some p.2 else acc o) m

/-- Model of `MemoryStore::remove_utxos_created`: remove every key of the given map. -/
def remove_utxos_created (m : UtxoMap) (created : List (OutPoint × ScriptHash)) : UtxoMap :=
  created.foldl (fun acc p => fun o => if o = p.1 then none else acc o) m

/-- Model of `MemoryStore::update_history`: for every `(k, v)` of `add`,
`history.entry(k).or_default().extend(v)`. -/
def update_history (h : HistMap) (add : HAssoc) : HistMap :=
  add.foldl (fun acc p => fun s => if s = p.1 then some ((acc p.1).getD [] ++ p.2) else acc s) h

/-- Model of `history_map.entry(k).or_default().push(t)` on an association list:
append `t` to the entry of `k`, creating the entry if absent. -/
def entryPush (m : HAssoc) (k : ScriptHash) (t : TxSeen) : HAssoc :=
  match m with
  | [] => [(k, [t])]
  | p :: rest => if p.1 = k then (p.1, p.2 ++ [t]) :: rest else p :: entryPush rest k t

/-- The loop in `update` that merges, for every spent utxo, a synthesized
`TxSeen(txid, height, V::Vin(vin))` into the caller's `history_map`. -/
def mergeSpent (hmap : HAssoc) (height : Nat) (spent : List SpentUtxo) : HAssoc :=
  spent.foldl (fun acc sp => entryPush acc sp.script_hash ⟨sp.txid, height, V.vin sp.vin⟩) hmap

/-- The match condition of `remove_history_entries`:
`entry.txid == e.txid && entry.height == e.height && entry.v == e.v`. -/
def matchesTriple (a b : TxSeen) : Bool :=
  a.txid == b.txid && a.height == b.height && a.v == b.v

/-- The inner loop of `remove_history_entries`: for each entry to remove,
`retain` the current entries that do not match its triple. -/
def removeEntriesFromList (cur : List TxSeen) (ts : List TxSeen) : List TxSeen :=
  ts.foldl (fun acc e => acc.filter (fun x => !(matchesTriple x e))) cur

/-- Model of `MemoryStore::remove_history_entries`: for every key of `to_remove`
present in the history, drop all entries matching a recorded triple and
delete the key if its entry list becomes empty. -/
def remove_history_entries (h : HistMap) (to_remove : HAssoc) : HistMap :=
  to_remove.foldl
    (fun acc p =>
      match acc p.1 with
      | none => acc
      | some cur =>
        let cur2 := removeEntriesFromList cur p.2
        fun s => if s = p.1 then (if cur2.isEmpty then none else some cur2) else acc s)
    h

/-- Model of `MemoryStore::push_reorg_data`.  The bound `REORG_BUFFER_MAX_DEPTH` is
declared outside the provided sources (the spec describes it only as a
deployment-chosen bound), so it is passed as the parameter `maxDepth`.
Push to the back; if the length now exceeds the bound, pop the front.
The second component is the dropped (warned-about) record, if any. -/
def push_reorg_data (maxDepth : Nat) (buf : List ReorgData) (d : ReorgData) :
    List ReorgData × Option ReorgData :=
  let b := buf ++ [d]
  if maxDepth < b.length then (b.tail, b.head?) else (b, none)

/-- Model of `MemoryStore::pop_reorg_data`: pop from the back; `none` models the
`error_panic!` (process-abort) path taken when the buffer is empty. -/
def pop_reorg_data (buf : List ReorgData) : Option (ReorgData × List ReorgData) :=
  match buf.getLast? with
  | none => none
  | some d => some (d, buf.dropLast)

/-- Model of `MemoryStore::update` (returns the new store and the `Result`):
remove spent outpoints, merge synthesized input-side `TxSeen`s into the
history additions, apply the merged additions, insert created outpoints,
and push the undo record. -/
def MemoryStore.update (s : MemoryStore) (maxDepth : Nat) (bm : BlockMeta)
    (utxo_spent : List SpentUtxo) (history_map : HAssoc)
    (utxo_created : List (OutPoint × ScriptHash)) :
    MemoryStore × Except String Unit :=
  let only_outpoints := utxo_spent.map (fun sp => sp.outpoint)
  let u1 := (remove_utxos s.utxos only_outpoints).1
  let merged := mergeSpent history_map bm.height utxo_spent
  let h1 := update_history s.history merged
  let u2 := insert_utxos u1 utxo_created
  let rd := (push_reorg_data maxDepth s.reorg_data
    ⟨bm.height, utxo_spent.map (fun sp => (sp.outpoint, sp.script_hash)), merged,
      utxo_created⟩).1
  (⟨u2, h1, rd⟩, Except.ok ())

/-- Model of `MemoryStore::reorg`: pop the most recent undo record and invert it;
`none` models the process-abort path on an empty buffer. -/
def MemoryStore.reorg (s : MemoryStore) : Option MemoryStore :=
  match pop_reorg_data s.reorg_data with
  | none => none
  | some (rd, rest) =>
    let u1 := insert_utxos s.utxos rd.spent
    let u2 := remove_utxos_created u1 rd.utxos_created
    let h1 := remove_history_entries s.history rd.history
    some ⟨u2, h1, rest⟩

/-- Arguments of one `update` call, for iterating sequences of updates. -/
structure BlockArgs where
  meta : BlockMeta
  spent : List SpentUtxo
  hist : HAssoc
  created : List (OutPoint × ScriptHash)
  deriving DecidableEq

/-- Apply a sequence of `update` calls (dropping the always-`Ok` results). -/
def applyBlocks (maxDepth : Nat) : List BlockArgs → MemoryStore → MemoryStore
  | [], s => s
  | b :: rest, s =>
    applyBlocks maxDepth rest (s.update maxDepth b.meta b.spent b.hist b.created).1

/-- The outpoints spent by one block. -/
def spentOps (b : BlockArgs) : List OutPoint := b.spent.map (fun sp => sp.outpoint)

/-- The outpoints created by one block. -/
def createdKeys (b : BlockArgs) : List OutPoint := b.created.map Prod.fst

/-- All outpoints a block touches (spent or created). -/
def touched (b : BlockArgs) : List OutPoint := spentOps b ++ createdKeys b

/-- All outpoints spent across a sequence of blocks. -/
def allSpentOps (blocks : List BlockArgs) : List OutPoint := blocks.flatMap spentOps

/-- All created bindings across a sequence of blocks. -/
def allCreated (blocks : List BlockArgs) : List (OutPoint × ScriptHash) :=
  blocks.flatMap (fun b => b.created)

/-- Last binding of a key in a bindings list (BTreeMap-insert semantics:
later bindings win). -/
def assocLookupLast (adds : List (OutPoint × ScriptHash)) (o : OutPoint) : Option ScriptHash :=
  adds.foldl (fun acc p => if p.1 = o then some p.2 else acc) none

/-- First binding of a key in a history association list (the unique one
when keys are distinct). -/
def assocLookup : HAssoc → ScriptHash → Option (List TxSeen)
  | [], _ => none
  | p :: rest, k => if p.1 = k then some p.2 else assocLookup rest k

/-- The "union of created entries minus union of spent outpoints" map. -/
def utxoUnionMinus (blocks : List BlockArgs) : UtxoMap :=
  fun o =>
    if o ∈ allSpentOps blocks then none
    else insert_utxos (fun _ => none) (allCreated blocks) o

/-- The constant `MAX_HASH_GAP_REPAIR` from src/server/preload.rs. -/
def MAX_HASH_GAP_REPAIR : Nat := 1000

/-- A block header, exposing its timestamp. -/
structure Header where
  time : Nat
  deriving DecidableEq

/-- The chain family parameter (opaque to the preload logic). -/
abbrev Family := Nat

/-- A block hash modelled as a natural. -/
abbrev BlockHash := Nat

/-- The chain-data client: fallible, height-to-hash and hash-to-header. -/
structure Client where
  block_hash : Nat → Except String (Option BlockHash)
  block_header : BlockHash → Family → Except String Header

/-- The server error type (the preload path only builds `DBCorrupted`). -/
inductive Error where
  | DBCorrupted : String → Error
  deriving DecidableEq

/-- Observable outcome of the repair loop: error (if any), cache pushes,
`put_hash_ts` calls and `block_hash` fetches, in order. -/
structure RepairOut where
  err : Option Error
  cache : List (Nat × Nat)
  puts : List BlockMeta
  fetches : List Nat
  deriving DecidableEq

/-- The gap-repair loop of `headers`: for every missing height fetch the
hash then the header, persist a synthesized `BlockMeta` and push
`(hash, timestamp)` to the cache; any failure aborts with `DBCorrupted`. -/
def repairGap (c : Client) (family : Family) (put : BlockMeta → Except String Unit) :
    List Nat → RepairOut
  | [] => ⟨none, [], [], []⟩
  | height :: rest =>
    match c.block_hash height with
    | Except.error e =>
      ⟨some (Error.DBCorrupted ("failed to fetch block hash: " ++ e)), [], [], [height]⟩
    | Except.ok none =>
      ⟨some (Error.DBCorrupted ("missing block hash at height " ++ toString height ++
        " while repairing hashes CF")), [], [], [height]⟩
    | Except.ok (some hash) =>
      match c.block_header hash family with
      | Except.error e =>
        ⟨some (Error.DBCorrupted ("failed to fetch block header for " ++ toString hash ++
          ": " ++ e)), [], [], [height]⟩
      | Except.ok header =>
        let repaired : BlockMeta := ⟨height, hash, header.time⟩
        match put repaired with
        | Except.error e =>
          ⟨some (Error.DBCorrupted ("failed to write hash meta: " ++ e)), [], [repaired],
            [height]⟩
        | Except.ok _ =>
          let r := repairGap c family put rest
          ⟨r.err, (hash, header.time) :: r.cache, repaired :: r.puts, height :: r.fetches⟩

/-- Observable outcome of `headers`: the returned `Result`, the
`blocks_hash_ts` cache pushes, the `put_hash_ts` calls and the
`block_hash` fetches performed, in order. -/
structure HeadersOut where
  result : Except Error Unit
  cache : List (Nat × Nat)
  puts : List BlockMeta
  fetches : List Nat

/-- The loop of `headers` with the expected-height cursor `i`: accept an
entry whose height equals the cursor; otherwise classify the gap
(out-of-order / no client / too large) or repair it, then accept. -/
def headersGo (client : Option Client) (family : Family)
    (put : BlockMeta → Except String Unit) : Nat → List BlockMeta → HeadersOut
  | _, [] => ⟨Except.ok (), [], [], []⟩
  | i, meta :: rest =>
    if i = meta.height then
      let r := headersGo client family put (i + 1) rest
      ⟨r.result, (meta.hash, meta.timestamp) :: r.cache, r.puts, r.fetches⟩
    else
      let gap_len := meta.height - i
      if gap_len = 0 then
        ⟨Except.error (Error.DBCorrupted ("hashes CF out-of-order entry at height " ++
          toString meta.height ++ ", reindex required")), [], [], []⟩
      else
        match client with
        | none =>
          ⟨Except.error (Error.DBCorrupted ("hashes CF gap detected: expected height " ++
            toString i ++ ", found " ++ toString meta.height ++
            ". DB is inconsistent; reindex required")), [], [], []⟩
        | some c =>
          if MAX_HASH_GAP_REPAIR < gap_len then
            ⟨Except.error (Error.DBCorrupted ("hashes CF gap too large to repair (" ++
              toString gap_len ++ " blocks from " ++ toString i ++ " to " ++
              toString (meta.height - 1) ++ "), reindex required")), [], [], []⟩
          else
            let r := repairGap c family put (List.range' i gap_len)
            match r.err with
            | some e => ⟨Except.error e, r.cache, r.puts, r.fetches⟩
            | none =>
              let r2 := headersGo client family put (meta.height + 1) rest
              ⟨r2.result, r.cache ++ (meta.hash, meta.timestamp) :: r2.cache,
                r.puts ++ r2.puts, r.fetches ++ r2.fetches⟩

/-- Model of `headers`: run the preload loop from cursor 0 over the persisted
sequence. -/
def headers (client : Option Client) (family : Family)
    (put : BlockMeta → Except String Unit) (metas : List BlockMeta) : HeadersOut :=
  headersGo client family put 0 metas

/-! ### Basic lemmas about the map operations -/

theorem remove_utxos_fst (ops : List OutPoint) :
    ∀ (m : UtxoMap) (o : OutPoint),
      (remove_utxos m ops).1 o = if o ∈ ops then none else m o := by
  induction ops with
  | nil => intro m o; simp [remove_utxos]
  | cons op rest ih =>
    intro m o
    simp only [remove_utxos, ih, List.mem_cons]
    by_cases h1 : o = op
    · subst h1
      simp
    · by_cases h2 : o ∈ rest <;> simp [h1, h2]

theorem remove_utxos_warn (ops : List OutPoint) :
    ∀ (m : UtxoMap) (op : OutPoint), op ∈ ops → m op = none →
      op ∈ (remove_utxos m ops).2 := by
  induction ops with
  | nil => intro m op h; simp at h
  | cons o rest ih =>
    intro m op hmem hnone
    simp only [remove_utxos, List.mem_append]
    rcases List.mem_cons.1 hmem with h | h
    · subst h
      left
      simp [hnone]
    · right
      apply ih _ _ h
      by_cases he : op = o <;> simp [he, hnone]

theorem insert_utxos_nil (m : UtxoMap) : insert_utxos m [] = m := rfl

theorem assocLookupLast_init (adds : List (OutPoint × ScriptHash)) (o : OutPoint) :
    ∀ a : Option ScriptHash,
      adds.foldl (fun acc p => if p.1 = o then some p.2 else acc) a =
        (assocLookupLast adds o).elim a some := by
  induction adds with
  | nil => intro a; simp [assocLookupLast]
  | cons p rest ih =>
    intro a
    have hr : assocLookupLast (p :: rest) o =
        (assocLookupLast rest o).elim (if p.1 = o then some p.2 else none) some := by
      show List.foldl _ (if p.1 = o then some p.2 else none) rest = _
      exact ih _
    simp only [List.foldl_cons]
    rw [ih, hr]
    cases assocLookupLast rest o <;> by_cases h : p.1 = o <;> simp [h]

theorem assocLookupLast_cons (p : OutPoint × ScriptHash)
    (rest : List (OutPoint × ScriptHash)) (o : OutPoint) :
    assocLookupLast (p :: rest) o =
      (assocLookupLast rest o).elim (if p.1 = o then some p.2 else none) some := by
  show List.foldl _ (if p.1 = o then some p.2 else none) rest = _
  exact assocLookupLast_init rest o _

theorem insert_utxos_eq (adds : List (OutPoint × ScriptHash)) :
    ∀ (m : UtxoMap) (o : OutPoint),
      insert_utxos m adds o = (assocLookupLast adds o).elim (m o) some := by
  induction adds with
  | nil => intro m o; simp [insert_utxos, assocLookupLast]
  | cons p rest ih =>
    intro m o
    have hstep : insert_utxos m (p :: rest) =
        insert_utxos (fun o2 => if o2 = p.1 then some p.2 else m o2) rest := rfl
    rw [hstep, ih, assocLookupLast_cons]
    cases assocLookupLast rest o <;> by_cases h : p.1 = o
    · simp [h]
    · simp [h, Ne.symm h]
    · simp [h]
    · simp [h]

theorem assocLookupLast_eq_none (adds : List (OutPoint × ScriptHash)) (o : OutPoint)
    (h : o ∉ adds.map Prod.fst) : assocLookupLast adds o = none := by
  induction adds with
  | nil => rfl
  | cons p rest ih =>
    simp only [List.map_cons, List.mem_cons] at h
    push_neg at h
    rw [assocLookupLast_cons, ih h.2]
    simp [Ne.symm h.1]

theorem assocLookupLast_isSome (adds : List (OutPoint × ScriptHash)) (o : OutPoint)
    (h : o ∈ adds.map Prod.fst) : (assocLookupLast adds o).isSome := by
  induction adds with
  | nil => simp at h
  | cons p rest ih =>
    rw [assocLookupLast_cons]
    simp only [List.map_cons, List.mem_cons] at h
    by_cases hr : o ∈ rest.map Prod.fst
    · have := ih hr
      cases hl : assocLookupLast rest o with
      | none => rw [hl] at this; simp at this
      | some v => simp [hl]
    · rcases h with h | h
      · rw [assocLookupLast_eq_none rest o hr, if_pos h.symm]
        simp
      · exact absurd h hr

theorem assocLookupLast_const (adds : List (OutPoint × ScriptHash)) (o : OutPoint)
    (v : ScriptHash) (hmem : o ∈ adds.map Prod.fst)
    (hval : ∀ p ∈ adds, p.1 = o → p.2 = v) :
    assocLookupLast adds o = some v := by
  induction adds with
  | nil => simp at hmem
  | cons p rest ih =>
    rw [assocLookupLast_cons]
    simp only [List.map_cons, List.mem_cons] at hmem
    by_cases hr : o ∈ rest.map Prod.fst
    · have := ih hr (fun q hq => hval q (List.mem_cons_of_mem _ hq))
      rw [this]
      simp
    · rcases hmem with h | h
      · rw [assocLookupLast_eq_none rest o hr, if_pos h.symm]
        simp [hval p (List.mem_cons_self _ _) h.symm]
      · exact absurd h hr

theorem remove_utxos_created_eq (created : List (OutPoint × ScriptHash)) :
    ∀ (m : UtxoMap) (o : OutPoint),
      remove_utxos_created m created o =
        if o ∈ created.map Prod.fst then none else m o := by
  induction created with
  | nil => intro m o; simp [remove_utxos_created]
  | cons p rest ih =>
    intro m o
    have hstep : remove_utxos_created m (p :: rest) =
        remove_utxos_created (fun o2 => if o2 = p.1 then none else m o2) rest := rfl
    rw [hstep, ih]
    by_cases h1 : o ∈ rest.map Prod.fst
    · simp [h1]
    · by_cases h2 : o = p.1 <;> simp [h1, h2]


/-! ### Lemmas about the history operations -/

theorem assocLookup_eq_none (m : HAssoc) (k : ScriptHash)
    (h : k ∉ m.map Prod.fst) : assocLookup m k = none := by
  induction m with
  | nil => rfl
  | cons p rest ih =>
    simp only [List.map_cons, List.mem_cons] at h
    push_neg at h
    simp only [assocLookup]
    rw [if_neg (Ne.symm h.1), ih h.2]

theorem assocLookup_entryPush (m : HAssoc) (k : ScriptHash) (t : TxSeen) :
    ∀ k' : ScriptHash,
      assocLookup (entryPush m k t) k' =
        if k' = k then some ((assocLookup m k).getD [] ++ [t]) else assocLookup m k' := by
  induction m with
  | nil =>
    intro k'
    by_cases h : k' = k
    · simp [entryPush, assocLookup, h]
    · simp [entryPush, assocLookup, h, Ne.symm h]
  | cons p rest ih =>
    intro k'
    by_cases hp : p.1 = k
    · simp only [entryPush, if_pos hp]
      by_cases h : k' = k
      · subst h
        simp [assocLookup, hp]
      · simp [assocLookup, hp, h, Ne.symm h]
    · simp only [entryPush, if_neg hp]
      by_cases h : k' = k
      · subst h
        simp only [assocLookup, if_neg hp]
        rw [ih]
        simp
      · simp only [assocLookup]
        by_cases hpk : p.1 = k'
        · simp [hpk, h]
        · simp only [if_neg hpk]
          rw [ih]
          simp [h]

theorem entryPush_keys (m : HAssoc) (k : ScriptHash) (t : TxSeen) :
    (entryPush m k t).map Prod.fst =
      if k ∈ m.map Prod.fst then m.map Prod.fst else m.map Prod.fst ++ [k] := by
  induction m with
  | nil => simp [entryPush]
  | cons p rest ih =>
    by_cases hp : p.1 = k
    · simp [entryPush, hp]
    · simp only [entryPush, if_neg hp, List.map_cons, ih, List.mem_cons]
      have hkp : ¬(k = p.1) := fun hh => hp hh.symm
      by_cases h : k ∈ rest.map Prod.fst
      · simp [h]
      · simp [h, hkp]

theorem entryPush_nodup (m : HAssoc) (k : ScriptHash) (t : TxSeen)
    (h : (m.map Prod.fst).Nodup) : ((entryPush m k t).map Prod.fst).Nodup := by
  rw [entryPush_keys]
  by_cases hm : k ∈ m.map Prod.fst
  · simpa [hm]
  · simp only [if_neg hm]
    rw [List.nodup_append]
    refine ⟨h, List.nodup_singleton _, ?_⟩
    intro a ha hb
    rw [List.mem_singleton] at hb
    subst hb
    exact hm ha

theorem mergeSpent_nodup (spent : List SpentUtxo) (height : Nat) :
    ∀ hmap : HAssoc, (hmap.map Prod.fst).Nodup →
      ((mergeSpent hmap height spent).map Prod.fst).Nodup := by
  induction spent with
  | nil => intro hmap h; exact h
  | cons sp rest ih =>
    intro hmap h
    exact ih _ (entryPush_nodup _ _ _ h)

theorem entryPush_mono (m : HAssoc) (k k' : ScriptHash) (t t' : TxSeen)
    (h : t' ∈ (assocLookup m k').getD []) :
    t' ∈ (assocLookup (entryPush m k t) k').getD [] := by
  rw [assocLookup_entryPush]
  by_cases hk : k' = k
  · subst hk
    cases hm : assocLookup m k' with
    | none => rw [hm] at h; simp at h
    | some l => rw [hm] at h; simp [hm]; exact Or.inl h
  · simpa [hk]

theorem mergeSpent_mono (spent : List SpentUtxo) (height : Nat) :
    ∀ (hmap : HAssoc) (k' : ScriptHash) (t' : TxSeen),
      t' ∈ (assocLookup hmap k').getD [] →
      t' ∈ (assocLookup (mergeSpent hmap height spent) k').getD [] := by
  induction spent with
  | nil => intro hmap k' t' h; exact h
  | cons sp rest ih =>
    intro hmap k' t' h
    exact ih _ _ _ (entryPush_mono _ _ _ _ _ h)

theorem mergeSpent_mem (spent : List SpentUtxo) (height : Nat) :
    ∀ (hmap : HAssoc) (sp : SpentUtxo), sp ∈ spent →
      (⟨sp.txid, height, V.vin sp.vin⟩ : TxSeen) ∈
        (assocLookup (mergeSpent hmap height spent) sp.script_hash).getD [] := by
  induction spent with
  | nil => intro hmap sp h; simp at h
  | cons x rest ih =>
    intro hmap sp hmem
    have hstep : mergeSpent hmap height (x :: rest) =
        mergeSpent (entryPush hmap x.script_hash ⟨x.txid, height, V.vin x.vin⟩) height rest :=
      rfl
    rw [hstep]
    rcases List.mem_cons.1 hmem with h | h
    · subst h
      apply mergeSpent_mono
      rw [assocLookup_entryPush]
      simp
    · exact ih _ _ h

theorem update_history_eq (add : HAssoc) (hnd : (add.map Prod.fst).Nodup) :
    ∀ (h : HistMap) (scr : ScriptHash),
      update_history h add scr =
        (assocLookup add scr).elim (h scr) (fun val => some ((h scr).getD [] ++ val)) := by
  induction add with
  | nil => intro h scr; simp [update_history, assocLookup]
  | cons p rest ih =>
    intro h scr
    simp only [List.map_cons, List.nodup_cons] at hnd
    have hstep : update_history h (p :: rest) =
        update_history (fun s => if s = p.1 then some ((h p.1).getD [] ++ p.2) else h s) rest :=
      rfl
    rw [hstep, ih hnd.2]
    by_cases hscr : scr = p.1
    · subst hscr
      rw [assocLookup_eq_none rest p.1 hnd.1]
      simp [assocLookup]
    · have hpk : ¬(p.1 = scr) := fun hh => hscr hh.symm
      simp only [assocLookup, if_neg hpk, if_neg hscr]

theorem matchesTriple_iff (a b : TxSeen) : matchesTriple a b = true ↔ a = b := by
  cases a
  cases b
  simp [matchesTriple, TxSeen.mk.injEq, and_assoc]

theorem matchesTriple_self (a : TxSeen) : matchesTriple a a = true :=
  (matchesTriple_iff a a).2 rfl

theorem removeEntriesFromList_eq_filter (ts : List TxSeen) :
    ∀ cur : List TxSeen,
      removeEntriesFromList cur ts =
        cur.filter (fun x => !(ts.any (fun e => matchesTriple x e))) := by
  induction ts with
  | nil =>
    intro cur
    simp [removeEntriesFromList]
  | cons e rest ih =>
    intro cur
    have hstep : removeEntriesFromList cur (e :: rest) =
        removeEntriesFromList (cur.filter (fun x => !(matchesTriple x e))) rest := rfl
    rw [hstep, ih, List.filter_filter]
    apply List.filter_congr
    intro x _
    simp [List.any_cons, Bool.not_or, Bool.and_comm]

theorem remove_history_entries_eq (rm : HAssoc) (hnd : (rm.map Prod.fst).Nodup) :
    ∀ (h : HistMap) (scr : ScriptHash),
      remove_history_entries h rm scr =
        (assocLookup rm scr).elim (h scr) (fun es =>
          (h scr).elim none (fun cur =>
            if (removeEntriesFromList cur es).isEmpty then none
            else some (removeEntriesFromList cur es))) := by
  induction rm with
  | nil => intro h scr; simp [remove_history_entries, assocLookup]
  | cons p rest ih =>
    intro h scr
    simp only [List.map_cons, List.nodup_cons] at hnd
    have hstep : remove_history_entries h (p :: rest) =
        remove_history_entries
          (match h p.1 with
           | none => h
           | some cur =>
             fun s => if s = p.1 then
               (if (removeEntriesFromList cur p.2).isEmpty then none
                else some (removeEntriesFromList cur p.2))
             else h s) rest := rfl
    rw [hstep, ih hnd.2]
    by_cases hscr : scr = p.1
    · subst hscr
      rw [assocLookup_eq_none rest p.1 hnd.1]
      simp only [assocLookup, if_pos rfl, Option.elim]
      cases hp : h p.1 with
      | none => simp [hp]
      | some cur => simp [hp]
    · have hpk : ¬(p.1 = scr) := fun hh => hscr hh.symm
      have hsame : (match h p.1 with
           | none => h
           | some cur =>
             fun s => if s = p.1 then
               (if (removeEntriesFromList cur p.2).isEmpty then none
                else some (removeEntriesFromList cur p.2))
             else h s) scr = h scr := by
        cases hp : h p.1 with
        | none => rfl
        | some cur => simp [hscr]
      rw [hsame]
      simp only [assocLookup, if_neg hpk]

/-! ### Lemmas about the undo buffer -/

theorem push_reorg_data_length (maxDepth : Nat) (buf : List ReorgData) (d : ReorgData)
    (h : buf.length ≤ maxDepth) :
    ((push_reorg_data maxDepth buf d).1).length ≤ maxDepth := by
  simp only [push_reorg_data]
  by_cases hb : maxDepth < (buf ++ [d]).length
  · rw [if_pos hb]
    simp only [List.length_tail, List.length_append, List.length_singleton]
    omega
  · rw [if_neg hb]
    simp only [List.length_append, List.length_singleton] at *
    omega

theorem push_reorg_data_exceed (maxDepth : Nat) (buf : List ReorgData) (d : ReorgData)
    (h : maxDepth < buf.length + 1) :
    push_reorg_data maxDepth buf d = ((buf ++ [d]).tail, (buf ++ [d]).head?) := by
  simp only [push_reorg_data]
  rw [if_pos (by simpa using h)]

theorem push_reorg_data_getLast (maxDepth : Nat) (buf : List ReorgData) (d : ReorgData) :
    (push_reorg_data maxDepth buf d).1 = [] ∨
      ((push_reorg_data maxDepth buf d).1).getLast? = some d := by
  simp only [push_reorg_data]
  by_cases hb : maxDepth < (buf ++ [d]).length
  · rw [if_pos hb]
    cases buf with
    | nil => left; rfl
    | cons a l =>
      right
      show (l ++ [d]).getLast? = some d
      exact List.getLast?_concat _
  · rw [if_neg hb]
    right
    exact List.getLast?_concat _

theorem pop_push_reorg_data (maxDepth : Nat) (buf : List ReorgData) (d : ReorgData)
    (h : (push_reorg_data maxDepth buf d).1 ≠ []) :
    pop_reorg_data (push_reorg_data maxDepth buf d).1 =
      some (d, ((push_reorg_data maxDepth buf d).1).dropLast) := by
  rcases push_reorg_data_getLast maxDepth buf d with hc | hc
  · exact absurd hc h
  · simp [pop_reorg_data, hc]

theorem pop_reorg_data_eq_none (buf : List ReorgData) :
    pop_reorg_data buf = none ↔ buf = [] := by
  simp only [pop_reorg_data]
  cases hl : buf.getLast? with
  | none => simpa using (List.getLast?_eq_none_iff).1 hl
  | some d =>
    simp only []
    constructor
    · intro hcontra; exact absurd hcontra (by simp)
    · intro hb; subst hb; simp at hl

/-! ### Pointwise characterization of `update` and `reorg` -/

theorem update_utxos_eq (s : MemoryStore) (maxDepth : Nat) (bm : BlockMeta)
    (utxo_spent : List SpentUtxo) (history_map : HAssoc)
    (utxo_created : List (OutPoint × ScriptHash)) (o : OutPoint) :
    ((s.update maxDepth bm utxo_spent history_map utxo_created).1).utxos o =
      (assocLookupLast utxo_created o).elim
        (if o ∈ utxo_spent.map (fun sp => sp.outpoint) then none else s.utxos o) some := by
  show insert_utxos (remove_utxos s.utxos (utxo_spent.map fun sp => sp.outpoint)).1
    utxo_created o = _
  rw [insert_utxos_eq, remove_utxos_fst]

theorem update_history_def (s : MemoryStore) (maxDepth : Nat) (bm : BlockMeta)
    (utxo_spent : List SpentUtxo) (history_map : HAssoc)
    (utxo_created : List (OutPoint × ScriptHash)) :
    ((s.update maxDepth bm utxo_spent history_map utxo_created).1).history =
      update_history s.history (mergeSpent history_map bm.height utxo_spent) := rfl

theorem update_reorg_def (s : MemoryStore) (maxDepth : Nat) (bm : BlockMeta)
    (utxo_spent : List SpentUtxo) (history_map : HAssoc)
    (utxo_created : List (OutPoint × ScriptHash)) :
    ((s.update maxDepth bm utxo_spent history_map utxo_created).1).reorg_data =
      (push_reorg_data maxDepth s.reorg_data
        ⟨bm.height, utxo_spent.map (fun sp => (sp.outpoint, sp.script_hash)),
          mergeSpent history_map bm.height utxo_spent, utxo_created⟩).1 := rfl

theorem update_snd (s : MemoryStore) (maxDepth : Nat) (bm : BlockMeta)
    (utxo_spent : List SpentUtxo) (history_map : HAssoc)
    (utxo_created : List (OutPoint × ScriptHash)) :
    (s.update maxDepth bm utxo_spent history_map utxo_created).2 = Except.ok () := rfl

theorem reorg_eq_of_getLast (s : MemoryStore) (rd : ReorgData)
    (h : s.reorg_data.getLast? = some rd) :
    s.reorg = some ⟨remove_utxos_created (insert_utxos s.utxos rd.spent) rd.utxos_created,
      remove_history_entries s.history rd.history, s.reorg_data.dropLast⟩ := by
  simp [MemoryStore.reorg, pop_reorg_data, h]

theorem spentPairs_keys (utxo_spent : List SpentUtxo) :
    (utxo_spent.map (fun sp => (sp.outpoint, sp.script_hash))).map Prod.fst =
      utxo_spent.map (fun sp => sp.outpoint) := by
  rw [List.map_map]
  rfl

/-! ### Round-trip of a single `update` followed by `reorg` -/

theorem utxos_roundtrip (s : MemoryStore) (maxDepth : Nat) (bm : BlockMeta)
    (utxo_spent : List SpentUtxo) (history_map : HAssoc)
    (utxo_created : List (OutPoint × ScriptHash))
    (hspent : ∀ sp ∈ utxo_spent, s.utxos sp.outpoint = some sp.script_hash)
    (hfresh : ∀ p ∈ utxo_created, s.utxos p.1 = none ∧
      p.1 ∉ utxo_spent.map (fun sp => sp.outpoint)) :
    remove_utxos_created
      (insert_utxos ((s.update maxDepth bm utxo_spent history_map utxo_created).1).utxos
        (utxo_spent.map fun sp => (sp.outpoint, sp.script_hash)))
      utxo_created = s.utxos := by
  funext o
  rw [remove_utxos_created_eq, insert_utxos_eq, update_utxos_eq]
  by_cases hc : o ∈ utxo_created.map Prod.fst
  · rw [if_pos hc]
    rcases List.mem_map.1 hc with ⟨p, hp, hpo⟩
    rw [← hpo]
    exact ((hfresh p hp).1).symm
  · rw [if_neg hc]
    have hcl : assocLookupLast utxo_created o = none :=
      assocLookupLast_eq_none _ _ hc
    by_cases hs : o ∈ utxo_spent.map (fun sp => sp.outpoint)
    · rcases List.mem_map.1 hs with ⟨sp0, hsp0, hsp0o⟩
      have hconst : assocLookupLast (utxo_spent.map fun sp => (sp.outpoint, sp.script_hash)) o
          = some sp0.script_hash := by
        apply assocLookupLast_const
        · rw [spentPairs_keys]
          exact hs
        · intro p hp hpo
          rcases List.mem_map.1 hp with ⟨sp1, hsp1, hsp1e⟩
          have h1 : sp1.outpoint = o := by rw [← hsp1e] at hpo; exact hpo
          have h2 := hspent sp1 hsp1
          have h3 := hspent sp0 hsp0
          rw [h1] at h2
          rw [hsp0o] at h3
          rw [← hsp1e]
          exact Option.some.inj (h2.symm.trans h3)
      rw [hconst]
      have h3 := hspent sp0 hsp0
      rw [hsp0o] at h3
      simp [h3]
    · have hsl : assocLookupLast (utxo_spent.map fun sp => (sp.outpoint, sp.script_hash)) o
          = none := by
        apply assocLookupLast_eq_none
        rw [spentPairs_keys]
        exact hs
      rw [hsl, hcl]
      simp [hs]

theorem history_roundtrip (s : MemoryStore) (height : Nat)
    (utxo_spent : List SpentUtxo) (history_map : HAssoc)
    (hnd : (history_map.map Prod.fst).Nodup)
    (hnew : ∀ scr es, assocLookup (mergeSpent history_map height utxo_spent) scr = some es →
      ∀ t ∈ es, ∀ e ∈ (s.history scr).getD [], matchesTriple e t = false)
    (hnoempty : ∀ scr, s.history scr ≠ some []) :
    remove_history_entries (update_history s.history (mergeSpent history_map height utxo_spent))
      (mergeSpent history_map height utxo_spent) = s.history := by
  funext scr
  have hmnd := mergeSpent_nodup utxo_spent height history_map hnd
  rw [remove_history_entries_eq _ hmnd, update_history_eq _ hmnd]
  cases hm : assocLookup (mergeSpent history_map height utxo_spent) scr with
  | none => simp
  | some es =>
    simp only [Option.elim]
    have hrem : removeEntriesFromList ((s.history scr).getD [] ++ es) es =
        (s.history scr).getD [] := by
      rw [removeEntriesFromList_eq_filter, List.filter_append]
      have h1 : ((s.history scr).getD []).filter
          (fun x => !(es.any (fun e => matchesTriple x e))) = (s.history scr).getD [] := by
        rw [List.filter_eq_self]
        intro a ha
        have hall : ∀ t ∈ es, matchesTriple a t = false := fun t ht => hnew scr es hm t ht a ha
        simp only [Bool.not_eq_true']
        rw [List.any_eq_false]
        intro x hx
        simp [hall x hx]
      have h2 : es.filter (fun x => !(es.any (fun e => matchesTriple x e))) = [] := by
        rw [List.filter_eq_nil_iff]
        intro x hx
        have : es.any (fun e => matchesTriple x e) = true :=
          List.any_eq_true.2 ⟨x, hx, matchesTriple_self x⟩
        simp [this]
      rw [h1, h2, List.append_nil]
    rw [hrem]
    cases hh : s.history scr with
    | none => simp [hh]
    | some l =>
      have hl : l ≠ [] := fun hcontra => hnoempty scr (hcontra ▸ hh)
      simp [hh, hl]

/-- Claim C1 (as stated, counterexample).  The claim quantifies over *every*
store state; it fails when a spent outpoint is absent from the UTXO map
before the `update` (the lenient warn-path of `remove_utxos`): the
`reorg` then re-inserts the never-removed outpoint.  Here the undo buffer
did not evict the block's record (it is the single record in the buffer),
yet after `update`; `reorg` the UTXO map holds outpoint (0,0) ↦ 7 whereas
before the `update` it was empty. -/
theorem c1_counterexample :
    ((MemoryStore.new.update 2 ⟨5, 0, 0⟩ [⟨⟨0, 0⟩, 7, 1, 0⟩] [] []).1).reorg_data ≠ [] ∧
    ((MemoryStore.new.update 2 ⟨5, 0, 0⟩ [⟨⟨0, 0⟩, 7, 1, 0⟩] [] []).1).reorg.map
      (fun t => t.utxos ⟨0, 0⟩) = some (some 7) ∧
    MemoryStore.new.utxos ⟨0, 0⟩ = none := by
  refine ⟨by decide, rfl, rfl⟩

/-- Claim C1 (amended).  For every store state and every single `update`
immediately followed by `reorg`, the UTXO map and the history map return
exactly to their pre-`update` state, provided the undo buffer did not
evict that block's record (`hkept`) and additionally: every spent
outpoint is present in the UTXO map bound to its recorded script hash
(`hspent`); every created outpoint is fresh — absent from the UTXO map
and distinct from the spent outpoints (`hfresh`); no history triple added
by the update already occurs in that script's pre-existing history
(`hnew`); the pre-existing history holds no empty entry list
(`hnoempty`); and the caller-supplied history additions have unique keys
(`hnd`, guaranteed for a `BTreeMap`). -/
theorem c1_update_reorg_roundtrip (maxDepth : Nat) (s : MemoryStore) (bm : BlockMeta)
    (utxo_spent : List SpentUtxo) (history_map : HAssoc)
    (utxo_created : List (OutPoint × ScriptHash))
    (hnd : (history_map.map Prod.fst).Nodup)
    (hspent : ∀ sp ∈ utxo_spent, s.utxos sp.outpoint = some sp.script_hash)
    (hfresh : ∀ p ∈ utxo_created, s.utxos p.1 = none ∧
      p.1 ∉ utxo_spent.map (fun sp => sp.outpoint))
    (hnew : ∀ scr es,
      assocLookup (mergeSpent history_map bm.height utxo_spent) scr = some es →
      ∀ t ∈ es, ∀ e ∈ (s.history scr).getD [], matchesTriple e t = false)
    (hnoempty : ∀ scr, s.history scr ≠ some [])
    (hkept : ((s.update maxDepth bm utxo_spent history_map utxo_created).1).reorg_data ≠ []) :
    ((s.update maxDepth bm utxo_spent history_map utxo_created).1).reorg.map
      (fun t => (t.utxos, t.history)) = some (s.utxos, s.history) := by
  have hlast :
      ((s.update maxDepth bm utxo_spent history_map utxo_created).1).reorg_data.getLast? =
      some ⟨bm.height, utxo_spent.map (fun sp => (sp.outpoint, sp.script_hash)),
        mergeSpent history_map bm.height utxo_spent, utxo_created⟩ := by
    rw [update_reorg_def]
    rcases push_reorg_data_getLast maxDepth s.reorg_data
        ⟨bm.height, utxo_spent.map (fun sp => (sp.outpoint, sp.script_hash)),
          mergeSpent history_map bm.height utxo_spent, utxo_created⟩ with hc | hc
    · rw [update_reorg_def] at hkept
      exact absurd hc hkept
    · exact hc
  rw [reorg_eq_of_getLast _ _ hlast]
  have hu := utxos_roundtrip s maxDepth bm utxo_spent history_map utxo_created hspent hfresh
  have hh2 := history_roundtrip s bm.height utxo_spent history_map hnd hnew hnoempty
  simp only [Option.map_some']
  refine congrArg some (Prod.ext ?_ ?_)
  · exact hu
  · exact hh2

/-- Witness for C1 (amended) at a concrete input (empty store, empty
deltas, bound 1): all hypotheses hold and the round trip restores the
store's maps. -/
theorem c1_update_reorg_roundtrip_witness :
    ((MemoryStore.new.update 1 ⟨0, 0, 0⟩ [] [] []).1).reorg_data ≠ [] ∧
    ((MemoryStore.new.update 1 ⟨0, 0, 0⟩ [] [] []).1).reorg.map
      (fun t => (t.utxos, t.history)) =
        some (MemoryStore.new.utxos, MemoryStore.new.history) :=
  ⟨by decide,
    c1_update_reorg_roundtrip 1 MemoryStore.new ⟨0, 0, 0⟩ [] [] []
      (by simp) (by simp) (by simp)
      (fun scr es h => by simp [mergeSpent, assocLookup] at h)
      (fun scr => by simp [MemoryStore.new])
      (by decide)⟩

/-! ### Claims C5, C6, C7, C8 -/

/-- Claim C7.  Calling `reorg` with an empty undo buffer takes the
process-abort (`error_panic!`) path, modelled as `none`, rather than
returning a value or a recoverable error; and that abort branch is taken
if and only if the buffer is empty at pop time. -/
theorem c7_reorg_abort_iff_empty (s : MemoryStore) :
    s.reorg = none ↔ s.reorg_data = [] := by
  constructor
  · intro h
    by_contra hne
    rcases s.reorg_data.eq_nil_or_concat with hc | ⟨l, d, hc⟩
    · exact hne hc
    · have hpop : pop_reorg_data s.reorg_data = some (d, s.reorg_data.dropLast) := by
        simp [pop_reorg_data, hc, List.getLast?_concat]
      unfold MemoryStore.reorg at h
      rw [hpop] at h
      simp at h
  · intro hb
    unfold MemoryStore.reorg
    rw [(pop_reorg_data_eq_none _).2 hb]

theorem applyBlocks_length (maxDepth : Nat) (blocks : List BlockArgs) :
    ∀ s : MemoryStore, s.reorg_data.length ≤ maxDepth →
      (applyBlocks maxDepth blocks s).reorg_data.length ≤ maxDepth := by
  induction blocks with
  | nil => intro s h; exact h
  | cons b rest ih =>
    intro s h
    show (applyBlocks maxDepth rest
      (s.update maxDepth b.meta b.spent b.hist b.created).1).reorg_data.length ≤ maxDepth
    apply ih
    rw [update_reorg_def]
    exact push_reorg_data_length _ _ _ h

/-- Claim C6.  The undo buffer stays bounded: starting from any store whose
buffer respects the bound (in particular the fresh store), every sequence
of `update` calls leaves at most `maxDepth` records; when a push would
exceed the bound, exactly the front (oldest) record is dropped (and
returned as the warned-about record); and `update` still returns `Ok`. -/
theorem c6_reorg_buffer_bounded (maxDepth : Nat) (blocks : List BlockArgs)
    (s : MemoryStore) (buf : List ReorgData) (d : ReorgData) (bm : BlockMeta)
    (utxo_spent : List SpentUtxo) (history_map : HAssoc)
    (utxo_created : List (OutPoint × ScriptHash))
    (hbound : s.reorg_data.length ≤ maxDepth)
    (hexceed : maxDepth < buf.length + 1) :
    (applyBlocks maxDepth blocks s).reorg_data.length ≤ maxDepth ∧
    push_reorg_data maxDepth buf d = ((buf ++ [d]).tail, (buf ++ [d]).head?) ∧
    (s.update maxDepth bm utxo_spent history_map utxo_created).2 = Except.ok () :=
  ⟨applyBlocks_length maxDepth blocks s hbound,
   push_reorg_data_exceed maxDepth buf d hexceed,
   rfl⟩

/-- Witness for C6 at a concrete input (bound 1, two block applications
from the fresh store, a full buffer of one record). -/
theorem c6_witness :
    MemoryStore.new.reorg_data.length ≤ 1 ∧
    (1 : Nat) < [ReorgData.mk 0 [] [] []].length + 1 ∧
    (applyBlocks 1 [⟨⟨0, 0, 0⟩, [], [], []⟩, ⟨⟨1, 0, 0⟩, [], [], []⟩]
      MemoryStore.new).reorg_data.length ≤ 1 ∧
    push_reorg_data 1 [ReorgData.mk 0 [] [] []] (ReorgData.mk 1 [] [] []) =
      (([ReorgData.mk 0 [] [] []] ++ [ReorgData.mk 1 [] [] []]).tail,
       ([ReorgData.mk 0 [] [] []] ++ [ReorgData.mk 1 [] [] []]).head?) ∧
    (MemoryStore.new.update 1 ⟨0, 0, 0⟩ [] [] []).2 = Except.ok () := by
  have h := c6_reorg_buffer_bounded 1
    [⟨⟨0, 0, 0⟩, [], [], []⟩, ⟨⟨1, 0, 0⟩, [], [], []⟩]
    MemoryStore.new [ReorgData.mk 0 [] [] []] (ReorgData.mk 1 [] [] []) ⟨0, 0, 0⟩ [] [] []
    (by decide) (by decide)
  exact ⟨by decide, by decide, h.1, h.2.1, h.2.2⟩

/-- Claim C5.  When some spent outpoint is absent from the UTXO map,
`update` does not fail: it returns `Ok`, records a warning for the absent
outpoint, and still applies every other mutation — the remaining spent
outpoints are removed and the created outpoints inserted (the pointwise
UTXO equation), the merged history additions are applied, and the undo
record is pushed. -/
theorem c5_missing_spent_not_fatal (maxDepth : Nat) (s : MemoryStore) (bm : BlockMeta)
    (utxo_spent : List SpentUtxo) (history_map : HAssoc)
    (utxo_created : List (OutPoint × ScriptHash)) (sp : SpentUtxo)
    (hmem : sp ∈ utxo_spent) (habsent : s.utxos sp.outpoint = none)
    (hnd : (history_map.map Prod.fst).Nodup) :
    (s.update maxDepth bm utxo_spent history_map utxo_created).2 = Except.ok () ∧
    sp.outpoint ∈ (remove_utxos s.utxos (utxo_spent.map (fun q => q.outpoint))).2 ∧
    (∀ o : OutPoint,
      ((s.update maxDepth bm utxo_spent history_map utxo_created).1).utxos o =
        (assocLookupLast utxo_created o).elim
          (if o ∈ utxo_spent.map (fun q => q.outpoint) then none else s.utxos o) some) ∧
    (∀ scr : ScriptHash,
      ((s.update maxDepth bm utxo_spent history_map utxo_created).1).history scr =
        (assocLookup (mergeSpent history_map bm.height utxo_spent) scr).elim (s.history scr)
          (fun val => some ((s.history scr).getD [] ++ val))) ∧
    ((s.update maxDepth bm utxo_spent history_map utxo_created).1).reorg_data =
      (push_reorg_data maxDepth s.reorg_data
        ⟨bm.height, utxo_spent.map (fun q => (q.outpoint, q.script_hash)),
          mergeSpent history_map bm.height utxo_spent, utxo_created⟩).1 := by
  refine ⟨rfl, ?_, ?_, ?_, rfl⟩
  · exact remove_utxos_warn _ _ _ (List.mem_map.2 ⟨sp, hmem, rfl⟩) habsent
  · intro o
    exact update_utxos_eq s maxDepth bm utxo_spent history_map utxo_created o
  · intro scr
    rw [update_history_def]
    exact update_history_eq _ (mergeSpent_nodup _ _ _ hnd) _ _

/-- Witness for C5 at a concrete input: the single spent outpoint is
absent from the empty store's UTXO map; `update` returns `Ok` and the
outpoint is warned about. -/
theorem c5_witness :
    (MemoryStore.new.update 1 ⟨0, 0, 0⟩ [⟨⟨0, 0⟩, 7, 1, 0⟩] [] []).2 = Except.ok () ∧
    (⟨0, 0⟩ : OutPoint) ∈ (remove_utxos MemoryStore.new.utxos
      ([(⟨⟨0, 0⟩, 7, 1, 0⟩ : SpentUtxo)].map (fun q => q.outpoint))).2 :=
  ⟨(c5_missing_spent_not_fatal 1 MemoryStore.new ⟨0, 0, 0⟩ [⟨⟨0, 0⟩, 7, 1, 0⟩] [] []
      ⟨⟨0, 0⟩, 7, 1, 0⟩ (by simp) rfl (by simp)).1,
   (c5_missing_spent_not_fatal 1 MemoryStore.new ⟨0, 0, 0⟩ [⟨⟨0, 0⟩, 7, 1, 0⟩] [] []
      ⟨⟨0, 0⟩, 7, 1, 0⟩ (by simp) rfl (by simp)).2.1⟩

theorem push_reorg_data_ne_nil (maxDepth : Nat) (buf : List ReorgData) (d : ReorgData)
    (h : 1 ≤ maxDepth) : (push_reorg_data maxDepth buf d).1 ≠ [] := by
  simp only [push_reorg_data]
  by_cases hb : maxDepth < (buf ++ [d]).length
  · rw [if_pos hb]
    cases buf with
    | nil =>
      simp only [List.nil_append, List.length_singleton] at hb
      omega
    | cons a l => simp
  · rw [if_neg hb]
    simp

theorem update_reorg_getLast (s : MemoryStore) (maxDepth : Nat) (bm : BlockMeta)
    (utxo_spent : List SpentUtxo) (history_map : HAssoc)
    (utxo_created : List (OutPoint × ScriptHash))
    (h : ((s.update maxDepth bm utxo_spent history_map utxo_created).1).reorg_data ≠ []) :
    ((s.update maxDepth bm utxo_spent history_map utxo_created).1).reorg_data.getLast? =
      some ⟨bm.height, utxo_spent.map (fun sp => (sp.outpoint, sp.script_hash)),
        mergeSpent history_map bm.height utxo_spent, utxo_created⟩ := by
  rw [update_reorg_def]
  rcases push_reorg_data_getLast maxDepth s.reorg_data
      ⟨bm.height, utxo_spent.map (fun sp => (sp.outpoint, sp.script_hash)),
        mergeSpent history_map bm.height utxo_spent, utxo_created⟩ with hc | hc
  · rw [update_reorg_def] at h
    exact absurd hc h
  · exact hc

/-- Claim C8.  For every `update` call: each spent utxo contributes a
synthesized `TxSeen(txid, block height, Vin(vin))` appended to its owning
script hash's entry in the merged history additions; the merged map is
exactly what is applied to the history index (pointwise equation); and
(when the bound keeps at least one record) the merged map is what is
captured in the pushed undo record, together with the block height, the
spent pairs and the created outpoints. -/
theorem c8_synthesized_history (maxDepth : Nat) (s : MemoryStore) (bm : BlockMeta)
    (utxo_spent : List SpentUtxo) (history_map : HAssoc)
    (utxo_created : List (OutPoint × ScriptHash))
    (hnd : (history_map.map Prod.fst).Nodup) (hdepth : 1 ≤ maxDepth) :
    (∀ sp ∈ utxo_spent,
      (⟨sp.txid, bm.height, V.vin sp.vin⟩ : TxSeen) ∈
        (assocLookup (mergeSpent history_map bm.height utxo_spent) sp.script_hash).getD []) ∧
    (∀ scr : ScriptHash,
      ((s.update maxDepth bm utxo_spent history_map utxo_created).1).history scr =
        (assocLookup (mergeSpent history_map bm.height utxo_spent) scr).elim (s.history scr)
          (fun val => some ((s.history scr).getD [] ++ val))) ∧
    ((s.update maxDepth bm utxo_spent history_map utxo_created).1).reorg_data.getLast? =
      some ⟨bm.height, utxo_spent.map (fun sp => (sp.outpoint, sp.script_hash)),
        mergeSpent history_map bm.height utxo_spent, utxo_created⟩ := by
  refine ⟨?_, ?_, ?_⟩
  · intro sp hsp
    exact mergeSpent_mem utxo_spent bm.height history_map sp hsp
  · intro scr
    rw [update_history_def]
    exact update_history_eq _ (mergeSpent_nodup _ _ _ hnd) _ _
  · apply update_reorg_getLast
    rw [update_reorg_def]
    exact push_reorg_data_ne_nil maxDepth s.reorg_data _ hdepth

/-- Witness for C8 at a concrete input: one spent utxo, empty additions;
the synthesized entry is present, the history equation holds at the
owning script, and the undo record captures the merged map. -/
theorem c8_witness :
    ((⟨1, 3, V.vin 0⟩ : TxSeen) ∈
      (assocLookup (mergeSpent [] 3 [⟨⟨0, 0⟩, 7, 1, 0⟩]) 7).getD []) ∧
    ((MemoryStore.new.update 1 ⟨3, 0, 0⟩ [⟨⟨0, 0⟩, 7, 1, 0⟩] [] []).1).reorg_data.getLast? =
      some ⟨3, [(⟨0, 0⟩, 7)], mergeSpent [] 3 [⟨⟨0, 0⟩, 7, 1, 0⟩], []⟩ :=
  ⟨(c8_synthesized_history 1 MemoryStore.new ⟨3, 0, 0⟩ [⟨⟨0, 0⟩, 7, 1, 0⟩] [] []
      (by simp) (by decide)).1 ⟨⟨0, 0⟩, 7, 1, 0⟩ (by simp),
   (c8_synthesized_history 1 MemoryStore.new ⟨3, 0, 0⟩ [⟨⟨0, 0⟩, 7, 1, 0⟩] [] []
      (by simp) (by decide)).2.2⟩

/-! ### Claims C9, C10 -/

/-- Claim C9.  History removal during reorg deletes only entries whose
(transaction id, height, direction marker) triple equals one recorded for
that script in the undo record, and any entry with a different
transaction id — even at the same height — is left in place. -/
theorem c9_history_removal_exact (h : HistMap) (rm : HAssoc)
    (hnd : (rm.map Prod.fst).Nodup) (scr : ScriptHash) (e : TxSeen)
    (he : e ∈ (h scr).getD []) :
    (e ∉ ((remove_history_entries h rm) scr).getD [] →
      ∃ es, assocLookup rm scr = some es ∧ ∃ t ∈ es, matchesTriple e t = true) ∧
    ((∀ es, assocLookup rm scr = some es → ∀ t ∈ es, e.txid ≠ t.txid) →
      e ∈ ((remove_history_entries h rm) scr).getD []) := by
  rw [remove_history_entries_eq _ hnd]
  cases hm : assocLookup rm scr with
  | none =>
    simp only [Option.elim]
    exact ⟨fun hcontra => absurd he hcontra, fun _ => he⟩
  | some es =>
    cases hh : h scr with
    | none =>
      rw [hh] at he
      simp at he
    | some cur =>
      rw [hh] at he
      simp only [Option.getD_some] at he
      simp only [Option.elim]
      have hres : ((if (removeEntriesFromList cur es).isEmpty then none
          else some (removeEntriesFromList cur es)).getD []) =
          removeEntriesFromList cur es := by
        by_cases hemp : (removeEntriesFromList cur es).isEmpty = true
        · rw [if_pos hemp, Option.getD_none]
          exact (List.isEmpty_iff.1 hemp).symm
        · rw [if_neg hemp, Option.getD_some]
      rw [hres, removeEntriesFromList_eq_filter]
      constructor
      · intro hnotin
        refine ⟨es, rfl, ?_⟩
        by_contra hcontra
        push_neg at hcontra
        apply hnotin
        apply List.mem_filter.2
        refine ⟨he, ?_⟩
        rw [Bool.not_eq_true', List.any_eq_false]
        intro t ht
        simp [hcontra t ht]
      · intro hdiff
        apply List.mem_filter.2
        refine ⟨he, ?_⟩
        rw [Bool.not_eq_true', List.any_eq_false]
        intro t ht hcontra2
        have hxt := (matchesTriple_iff e t).1 hcontra2
        exact hdiff es rfl t ht (by rw [hxt])

/-- Witness for C9: the script's entry `(2, 5, Vout 1)` shares height 5
with the recorded triple `(1, 5, Vin 0)` but has a different transaction
id, so it survives the removal. -/
theorem c9_witness :
    (⟨2, 5, V.vout 1⟩ : TxSeen) ∈
      ((remove_history_entries
        (fun scr => if scr = 0 then some [⟨1, 5, V.vin 0⟩, ⟨2, 5, V.vout 1⟩] else none)
        [(0, [⟨1, 5, V.vin 0⟩])]) 0).getD [] :=
  (c9_history_removal_exact
      (fun scr => if scr = 0 then some [⟨1, 5, V.vin 0⟩, ⟨2, 5, V.vout 1⟩] else none)
      [(0, [⟨1, 5, V.vin 0⟩])] (by simp) 0 ⟨2, 5, V.vout 1⟩ (by decide)).2
    (by
      intro es hes t ht
      have hse : [(⟨1, 5, V.vin 0⟩ : TxSeen)] = es := Option.some.inj hes
      rw [← hse] at ht
      simp only [List.mem_singleton] at ht
      subst ht
      decide)

/-- Claim C10.  If a script's history already holds an entry with the same
triple as one the update adds for that script, a `reorg` immediately
after the update removes every occurrence of that triple — including the
pre-existing one — because removal matches by value triple, not by
occurrence: filtering the post-reorg history of that script for the
triple yields the empty list. -/
theorem c10_duplicate_triple_removed (maxDepth : Nat) (s : MemoryStore) (bm : BlockMeta)
    (utxo_spent : List SpentUtxo) (history_map : HAssoc)
    (utxo_created : List (OutPoint × ScriptHash))
    (hnd : (history_map.map Prod.fst).Nodup) (scr : ScriptHash) (t : TxSeen)
    (ht : t ∈ (assocLookup (mergeSpent history_map bm.height utxo_spent) scr).getD [])
    (e0 : TxSeen) (he0 : e0 ∈ (s.history scr).getD []) (hmatch : matchesTriple e0 t = true) :
    (((s.update maxDepth bm utxo_spent history_map utxo_created).1).reorg.map
      (fun st => ((st.history scr).getD []).filter (fun e => matchesTriple e t))) =
    (((s.update maxDepth bm utxo_spent history_map utxo_created).1).reorg.map
      (fun _ => ([] : List TxSeen))) := by
  cases hre : ((s.update maxDepth bm utxo_spent history_map utxo_created).1).reorg with
  | none => rfl
  | some s2 =>
    simp only [Option.map_some']
    congr 1
    have hne : ((s.update maxDepth bm utxo_spent history_map utxo_created).1).reorg_data
        ≠ [] := by
      intro hcontra
      have hnone : pop_reorg_data ((s.update maxDepth bm utxo_spent history_map
          utxo_created).1).reorg_data = none := (pop_reorg_data_eq_none _).2 hcontra
      unfold MemoryStore.reorg at hre
      rw [hnone] at hre
      simp at hre
    have hlast := update_reorg_getLast s maxDepth bm utxo_spent history_map utxo_created hne
    rw [reorg_eq_of_getLast _ _ hlast] at hre
    have hs2 := Option.some.inj hre
    rw [← hs2]
    have hmnd := mergeSpent_nodup utxo_spent bm.height history_map hnd
    show (((remove_history_entries
        ((s.update maxDepth bm utxo_spent history_map utxo_created).1).history
        (mergeSpent history_map bm.height utxo_spent)) scr).getD []).filter
        (fun e => matchesTriple e t) = []
    rw [remove_history_entries_eq _ hmnd]
    cases hm : assocLookup (mergeSpent history_map bm.height utxo_spent) scr with
    | none =>
      rw [hm] at ht
      simp at ht
    | some es =>
      rw [hm] at ht
      simp only [Option.getD_some] at ht
      simp only [Option.elim]
      rw [update_history_def, update_history_eq _ hmnd, hm]
      simp only [Option.elim]
      have hres : ((if (removeEntriesFromList ((s.history scr).getD [] ++ es) es).isEmpty
          then none
          else some (removeEntriesFromList ((s.history scr).getD [] ++ es) es)).getD []) =
          removeEntriesFromList ((s.history scr).getD [] ++ es) es := by
        by_cases hemp :
            (removeEntriesFromList ((s.history scr).getD [] ++ es) es).isEmpty = true
        · rw [if_pos hemp, Option.getD_none]
          exact (List.isEmpty_iff.1 hemp).symm
        · rw [if_neg hemp, Option.getD_some]
      rw [hres, removeEntriesFromList_eq_filter, List.filter_filter,
        List.filter_eq_nil_iff]
      intro x hx hcontra
      rw [Bool.and_eq_true] at hcontra
      have hxt := (matchesTriple_iff x t).1 hcontra.1
      have hany : es.any (fun e => matchesTriple x e) = true :=
        List.any_eq_true.2 ⟨t, ht, by rw [hxt]; exact matchesTriple_self t⟩
      rw [hany] at hcontra
      simp at hcontra

/-- Witness for C10: the script's pre-existing entry `(1, 5, Vout 0)` is
also added by the block; after `update` then `reorg` no occurrence of the
triple remains. -/
theorem c10_witness :
    ((((⟨fun _ => none,
        fun scr => if scr = 0 then some [⟨1, 5, V.vout 0⟩] else none, []⟩ :
          MemoryStore).update 1 ⟨5, 0, 0⟩ [] [(0, [⟨1, 5, V.vout 0⟩])] []).1).reorg.map
      (fun st => ((st.history 0).getD []).filter
        (fun e => matchesTriple e ⟨1, 5, V.vout 0⟩))) =
    ((((⟨fun _ => none,
        fun scr => if scr = 0 then some [⟨1, 5, V.vout 0⟩] else none, []⟩ :
          MemoryStore).update 1 ⟨5, 0, 0⟩ [] [(0, [⟨1, 5, V.vout 0⟩])] []).1).reorg.map
      (fun _ => ([] : List TxSeen))) :=
  c10_duplicate_triple_removed 1
    ⟨fun _ => none, fun scr => if scr = 0 then some [⟨1, 5, V.vout 0⟩] else none, []⟩
    ⟨5, 0, 0⟩ [] [(0, [⟨1, 5, V.vout 0⟩])] [] (by simp) 0 ⟨1, 5, V.vout 0⟩ (by decide)
    ⟨1, 5, V.vout 0⟩ (by decide) (by decide)

/-! ### Claim C2 -/

theorem assocLookupLast_append (l1 l2 : List (OutPoint × ScriptHash)) (o : OutPoint) :
    assocLookupLast (l1 ++ l2) o = (assocLookupLast l2 o).elim (assocLookupLast l1 o) some := by
  show List.foldl _ none (l1 ++ l2) = _
  rw [List.foldl_append]
  exact assocLookupLast_init l2 o _

theorem allSpentOps_cons (b : BlockArgs) (rest : List BlockArgs) :
    allSpentOps (b :: rest) = spentOps b ++ allSpentOps rest := by
  simp [allSpentOps]

theorem allCreated_cons (b : BlockArgs) (rest : List BlockArgs) :
    allCreated (b :: rest) = b.created ++ allCreated rest := by
  simp [allCreated]

theorem mem_touched_of_spent (b : BlockArgs) (o : OutPoint)
    (h : o ∈ b.spent.map (fun sp => sp.outpoint)) : o ∈ touched b :=
  List.mem_append.2 (Or.inl h)

theorem mem_touched_of_created (b : BlockArgs) (o : OutPoint)
    (h : o ∈ b.created.map Prod.fst) : o ∈ touched b :=
  List.mem_append.2 (Or.inr h)

theorem not_mem_allSpentOps (rest : List BlockArgs) (o : OutPoint)
    (h : ∀ b2 ∈ rest, o ∉ touched b2) : o ∉ allSpentOps rest := by
  intro hc
  rcases List.mem_flatMap.1 hc with ⟨b2, hb2, ho⟩
  exact h b2 hb2 (mem_touched_of_spent b2 o ho)

theorem allCreated_lookup_none (rest : List BlockArgs) (o : OutPoint)
    (h : ∀ b2 ∈ rest, o ∉ touched b2) : assocLookupLast (allCreated rest) o = none := by
  apply assocLookupLast_eq_none
  intro hc
  rcases List.mem_map.1 hc with ⟨p, hp, hpo⟩
  rcases List.mem_flatMap.1 hp with ⟨b2, hb2, hpmem⟩
  exact h b2 hb2 (mem_touched_of_created b2 o (List.mem_map.2 ⟨p, hpmem, hpo⟩))

theorem applyBlocks_utxos (maxDepth : Nat) (blocks : List BlockArgs) :
    ∀ s : MemoryStore,
      (∀ b ∈ blocks, ∀ o ∈ touched b, s.utxos o = none) →
      List.Pairwise (fun b1 b2 => ∀ o ∈ touched b1, o ∉ touched b2) blocks →
      (∀ b ∈ blocks, ∀ o ∈ spentOps b, o ∉ createdKeys b) →
      ∀ o : OutPoint,
        (applyBlocks maxDepth blocks s).utxos o =
          if o ∈ allSpentOps blocks then none
          else (assocLookupLast (allCreated blocks) o).elim (s.utxos o) some := by
  induction blocks with
  | nil =>
    intro s hpre hpair hwithin o
    simp [applyBlocks, allSpentOps, allCreated, assocLookupLast]
  | cons b rest ih =>
    intro s hpre hpair hwithin o
    rw [List.pairwise_cons] at hpair
    have hpre2 : ∀ b2 ∈ rest, ∀ o2 ∈ touched b2,
        ((s.update maxDepth b.meta b.spent b.hist b.created).1).utxos o2 = none := by
      intro b2 hb2 o2 ho2
      have hnt : o2 ∉ touched b := fun hc => hpair.1 b2 hb2 o2 hc ho2
      rw [update_utxos_eq]
      have hc : assocLookupLast b.created o2 = none :=
        assocLookupLast_eq_none _ _ (fun hk => hnt (mem_touched_of_created b o2 hk))
      rw [hc]
      simp only [Option.elim]
      rw [if_neg (fun hk => hnt (mem_touched_of_spent b o2 hk))]
      exact hpre b2 (List.mem_cons_of_mem _ hb2) o2 ho2
    have hstep : applyBlocks maxDepth (b :: rest) s =
        applyBlocks maxDepth rest (s.update maxDepth b.meta b.spent b.hist b.created).1 := rfl
    rw [hstep, ih _ hpre2 hpair.2 (fun b2 hb2 => hwithin b2 (List.mem_cons_of_mem _ hb2)),
      allSpentOps_cons, allCreated_cons]
    by_cases hsb : o ∈ spentOps b
    · have hsb2 : o ∈ b.spent.map (fun sp => sp.outpoint) := hsb
      have hnotrest : ∀ b2 ∈ rest, o ∉ touched b2 :=
        fun b2 hb2 => hpair.1 b2 hb2 o (mem_touched_of_spent b o hsb)
      have hns : o ∉ allSpentOps rest := not_mem_allSpentOps rest o hnotrest
      have hcr : assocLookupLast (allCreated rest) o = none :=
        allCreated_lookup_none rest o hnotrest
      rw [if_neg hns, hcr]
      simp only [Option.elim]
      rw [update_utxos_eq]
      have hcb : assocLookupLast b.created o = none :=
        assocLookupLast_eq_none _ _ (hwithin b (List.mem_cons_self _ _) o hsb)
      rw [hcb]
      simp only [Option.elim]
      rw [if_pos hsb2, if_pos (List.mem_append.2 (Or.inl hsb))]
    · have hsb2 : o ∉ b.spent.map (fun sp => sp.outpoint) := hsb
      by_cases hsr : o ∈ allSpentOps rest
      · rw [if_pos hsr, if_pos (List.mem_append.2 (Or.inr hsr))]
      · rw [if_neg hsr, if_neg (by
          intro hc
          rcases List.mem_append.1 hc with hc1 | hc1
          · exact hsb hc1
          · exact hsr hc1)]
        rw [assocLookupLast_append]
        cases hcr : assocLookupLast (allCreated rest) o with
        | some v => simp
        | none =>
          simp only [Option.elim]
          rw [update_utxos_eq, if_neg hsb2]
          cases assocLookupLast b.created o <;> rfl

/-- Claim C2.  Starting from the empty `MemoryStore`, for every sequence of
`update` calls whose per-block outpoint sets are disjoint (the outpoints
each block touches — spent or created — are pairwise disjoint across
blocks, and within each block the spent set is disjoint from the created
set), the UTXO map after all calls equals the union of all created
outpoint-to-script-hash entries minus the union of all spent
outpoints. -/
theorem c2_utxo_union_minus (maxDepth : Nat) (blocks : List BlockArgs)
    (hpair : List.Pairwise (fun b1 b2 => ∀ o ∈ touched b1, o ∉ touched b2) blocks)
    (hwithin : ∀ b ∈ blocks, ∀ o ∈ spentOps b, o ∉ createdKeys b) :
    (applyBlocks maxDepth blocks MemoryStore.new).utxos = utxoUnionMinus blocks := by
  funext o
  rw [applyBlocks_utxos maxDepth blocks MemoryStore.new
    (fun b hb o2 ho2 => rfl) hpair hwithin o]
  unfold utxoUnionMinus
  by_cases hs : o ∈ allSpentOps blocks
  · rw [if_pos hs, if_pos hs]
  · rw [if_neg hs, if_neg hs, insert_utxos_eq]
    cases assocLookupLast (allCreated blocks) o <;> rfl

/-- Witness for C2: two blocks, the first creating outpoint (1,0) for
script 5, the second spending the (never-created) outpoint (2,0); the
final UTXO map is the created union minus the spent union. -/
theorem c2_witness :
    List.Pairwise (fun b1 b2 => ∀ o ∈ touched b1, o ∉ touched b2)
      [(⟨⟨0, 0, 0⟩, [], [], [(⟨1, 0⟩, 5)]⟩ : BlockArgs),
       ⟨⟨1, 0, 0⟩, [⟨⟨2, 0⟩, 9, 3, 0⟩], [], []⟩] ∧
    (applyBlocks 4 [(⟨⟨0, 0, 0⟩, [], [], [(⟨1, 0⟩, 5)]⟩ : BlockArgs),
       ⟨⟨1, 0, 0⟩, [⟨⟨2, 0⟩, 9, 3, 0⟩], [], []⟩] MemoryStore.new).utxos =
      utxoUnionMinus [(⟨⟨0, 0, 0⟩, [], [], [(⟨1, 0⟩, 5)]⟩ : BlockArgs),
       ⟨⟨1, 0, 0⟩, [⟨⟨2, 0⟩, 9, 3, 0⟩], [], []⟩] :=
  ⟨by decide,
   c2_utxo_union_minus 4
     [(⟨⟨0, 0, 0⟩, [], [], [(⟨1, 0⟩, 5)]⟩ : BlockArgs),
      ⟨⟨1, 0, 0⟩, [⟨⟨2, 0⟩, 9, 3, 0⟩], [], []⟩]
     (by decide) (by decide)⟩

/-! ### Claims C3, C4 -/

/-- Claim C3.  Preload over a persisted sequence with entries at heights 0
and 2 only, with a client that supplies height 1's hash and header and a
succeeding `put_hash_ts`: `headers` returns `Ok`, `put_hash_ts` is called
exactly once — with the synthesized `BlockMeta` at height 1 carrying the
fetched hash and the header's timestamp — and the in-memory cache ends
holding exactly the 3 entries in height order 0, 1, 2. -/
theorem c3_preload_repairs_single_gap (h0 t0 h2 t2 h1 t1 : Nat) (c : Client)
    (family : Family) (put : BlockMeta → Except String Unit)
    (hbh : c.block_hash 1 = Except.ok (some h1))
    (hbhdr : c.block_header h1 family = Except.ok ⟨t1⟩)
    (hput : put ⟨1, h1, t1⟩ = Except.ok ()) :
    headers (some c) family put [⟨0, h0, t0⟩, ⟨2, h2, t2⟩] =
      ⟨Except.ok (), [(h0, t0), (h1, t1), (h2, t2)], [⟨1, h1, t1⟩], [1]⟩ := by
  have hrepair : repairGap c family put [1] = ⟨none, [(h1, t1)], [⟨1, h1, t1⟩], [1]⟩ := by
    simp [repairGap, hbh, hbhdr, hput]
  have hrange : List.range' 1 1 = [1] := rfl
  show headersGo (some c) family put 0 [⟨0, h0, t0⟩, ⟨2, h2, t2⟩] = _
  simp [headersGo, MAX_HASH_GAP_REPAIR, hrange, hrepair]

/-- Witness for C3 at a fully concrete input (hashes 100, 11, 102;
timestamps 200, 22, 202). -/
theorem c3_witness :
    headers (some ⟨fun n => if n = 1 then Except.ok (some 11) else Except.ok none,
        fun _ _ => Except.ok ⟨22⟩⟩) 0 (fun _ => Except.ok ())
      [⟨0, 100, 200⟩, ⟨2, 102, 202⟩] =
    ⟨Except.ok (), [(100, 200), (11, 22), (102, 202)], [⟨1, 11, 22⟩], [1]⟩ :=
  c3_preload_repairs_single_gap 100 200 102 202 11 22
    ⟨fun n => if n = 1 then Except.ok (some 11) else Except.ok none,
      fun _ _ => Except.ok ⟨22⟩⟩ 0 (fun _ => Except.ok ()) rfl rfl rfl

/-- Claim C4.  When a detected gap's length exceeds `MAX_HASH_GAP_REPAIR`,
even with a client available, the preload loop returns a `DBCorrupted`
error and performs no `put_hash_ts` write, no client fetch and no cache
push for that gap. -/
theorem c4_gap_too_large (c : Client) (family : Family)
    (put : BlockMeta → Except String Unit) (i : Nat) (meta : BlockMeta)
    (rest : List BlockMeta) (hgap : MAX_HASH_GAP_REPAIR < meta.height - i) :
    ∃ msg, headersGo (some c) family put i (meta :: rest) =
      ⟨Except.error (Error.DBCorrupted msg), [], [], []⟩ := by
  have h1 : ¬(i = meta.height) := by
    unfold MAX_HASH_GAP_REPAIR at hgap
    omega
  have h2 : ¬(meta.height - i = 0) := by
    unfold MAX_HASH_GAP_REPAIR at hgap
    omega
  refine ⟨"hashes CF gap too large to repair (" ++ toString (meta.height - i) ++
    " blocks from " ++ toString i ++ " to " ++ toString (meta.height - 1) ++
    "), reindex required", ?_⟩
  simp only [headersGo, if_neg h1, if_neg h2, if_pos hgap]

/-- Witness for C4: a gap of 1500 heights (entry at height 1500, cursor
at 0) aborts with `DBCorrupted` and performs no effect. -/
theorem c4_witness :
    MAX_HASH_GAP_REPAIR < (1500 : Nat) - 0 ∧
    ∃ msg, headersGo
        (some ⟨fun _ => Except.ok none, fun _ _ => Except.ok ⟨0⟩⟩) 0
        (fun _ => Except.ok ()) 0 [⟨1500, 0, 0⟩] =
      ⟨Except.error (Error.DBCorrupted msg), [], [], []⟩ :=
  ⟨by decide,
   c4_gap_too_large ⟨fun _ => Except.ok none, fun _ _ => Except.ok ⟨0⟩⟩ 0
     (fun _ => Except.ok ()) 0 ⟨1500, 0, 0⟩ [] (by decide)⟩
